import Mathlib

/-!
Verification of the streaming TTS text filter, the audio generation
dispatcher, the SiliconFlow backend wrapper and the RAG agent of this
repository, as a shallow embedding in Lean.

Text is modelled as `List Char` (Python `str`), optional text as
`Option (List Char)`.  Each definition is translated from the source file
named in its doc comment.
-/

/-- The set of characters Python's `\s` (and `str.strip()`) treats as
whitespace: ASCII whitespace plus the Unicode space characters. -/
def pySpaceChars : List Char :=
  [' ', '\t', '\n', '\r', '\x0b', '\x0c',
   '\x1c', '\x1d', '\x1e', '\x1f', '\x85', '\xa0',
   '\u1680', '\u2000', '\u2001', '\u2002', '\u2003', '\u2004', '\u2005',
   '\u2006', '\u2007', '\u2008', '\u2009', '\u200a',
   '\u2028', '\u2029', '\u202f', '\u205f', '\u3000']

/-- Python whitespace test (`\s` in the `re` patterns, `str.strip`). -/
def isPySpace (c : Char) : Bool := pySpaceChars.contains c

/-- Opening bracket characters recognised by the filter
(src/src/open_llm_vtuber/tts/tts_interface.py line 28). -/
def isOpenBracket (c : Char) : Bool := c = '(' || c = '（'

/-- Closing bracket characters recognised by the filter
(src/src/open_llm_vtuber/tts/tts_interface.py line 33). -/
def isCloseBracket (c : Char) : Bool := c = ')' || c = '）'

/-- Does the first character exist and fail Python's `\s` test?
Used to model the `\S+` part (at least one non-whitespace char). -/
def headNonWs : List Char → Bool
  | [] => false
  | c :: _ => !isPySpace c

/-- The literal prefix `http://` of the `https?://` regex alternative. -/
def httpPref : List Char := ['h', 't', 't', 'p', ':', '/', '/']

/-- The literal prefix `https://` of the `https?://` regex alternative. -/
def httpsPref : List Char := ['h', 't', 't', 'p', 's', ':', '/', '/']

/-- `startsWith p l` holds when `p` is a prefix of `l`. -/
def startsWith : List Char → List Char → Bool
  | [], _ => true
  | _ :: _, [] => false
  | p :: ps, c :: cs => p == c && startsWith ps cs

/-- Length of the maximal leading run of non-whitespace characters:
how far the greedy `\S+` extends. -/
def nonwsRun : List Char → Nat
  | [] => 0
  | c :: rest => if isPySpace c then 0 else nonwsRun rest + 1

/-- Does a match of the Python regex `https?://\S+` start at the head of
`l`?  The regex engine tries the greedy `s?` first; the two alternatives
cannot both hold at one position. -/
def urlAt (l : List Char) : Bool :=
  (startsWith httpsPref l && headNonWs (l.drop 8)) ||
  (startsWith httpPref l && headNonWs (l.drop 7))

/-- Length of the regex match starting at the head of `l` (0 when there
is none): the literal prefix plus the maximal non-whitespace run,
mirroring the greedy `\S+`. -/
def urlLen (l : List Char) : Nat :=
  if startsWith httpsPref l && headNonWs (l.drop 8) then 8 + nonwsRun (l.drop 8)
  else if startsWith httpPref l && headNonWs (l.drop 7) then 7 + nonwsRun (l.drop 7)
  else 0

/-- Worker for `removeUrls`.  The first argument counts characters still
to be skipped because they belong to the current match; at `0` the
scanner looks for the leftmost match at the current position, exactly as
`re.sub(r'https?://\S+', '', text)` does. -/
def removeUrlsAux : Nat → List Char → List Char
  | 0, [] => []
  | 0, c :: rest =>
    if urlAt (c :: rest) then removeUrlsAux (urlLen (c :: rest) - 1) rest
    else c :: removeUrlsAux 0 rest
  | _ + 1, [] => []
  | k + 1, _ :: rest => removeUrlsAux k rest

/-- Model of `re.sub(r'https?://\S+', '', text)`
(src/src/open_llm_vtuber/tts/tts_interface.py line 47 and
src/src/open_llm_vtuber/tts/siliconflow_tts.py line 36): delete every
non-overlapping leftmost match of `https?://\S+`. -/
def removeUrls (l : List Char) : List Char := removeUrlsAux 0 l

/-- Does the text contain a match of `https?://\S+` anywhere? -/
def hasUrl : List Char → Bool
  | [] => false
  | c :: rest => urlAt (c :: rest) || hasUrl rest

/-- After at least one leading ASCII letter, is the rest of the text of
the form `letters* ':' '/' '/' non-whitespace`?  Helper for
`schemeUrlAt`. -/
def schemeTail : List Char → Bool
  | [] => false
  | c :: rest =>
    if c.isAlpha then schemeTail rest
    else if c = ':' then
      match rest with
      | '/' :: '/' :: d :: _ => !isPySpace d
      | _ => false
    else false

/-- Does a literal URL of the spec's general form `scheme://` followed by
at least one non-whitespace character start at the head of `l`?  The
scheme is one or more ASCII letters.  This formalises the claim's wording
(spec section 3), not the code's narrower `https?://` pattern. -/
def schemeUrlAt : List Char → Bool
  | [] => false
  | c :: rest => c.isAlpha && schemeTail rest

/-- Does the text contain a `scheme://...` URL anywhere? -/
def hasSchemeUrl : List Char → Bool
  | [] => false
  | c :: rest => schemeUrlAt (c :: rest) || hasSchemeUrl rest

/-- Model of Python `str.strip()`: drop leading and trailing whitespace. -/
def pyStrip (l : List Char) : List Char :=
  ((l.dropWhile isPySpace).reverse.dropWhile isPySpace).reverse

/-- One iteration of the state-machine loop of `_filter_stream_text`
(src/src/open_llm_vtuber/tts/tts_interface.py lines 26-39): the pair is
the new `_in_brackets` state and the character collected into
`filtered_chars` (`none` when the character is dropped). -/
def bracketStep (b : Bool) (c : Char) : Bool × Option Char :=
  if isOpenBracket c then (true, none)
  else if isCloseBracket c then (false, none)
  else (b, if b then none else some c)

/-- The whole character scan of `_filter_stream_text` (lines 23-42):
threads `_in_brackets` through `bracketStep` and collects the emitted
characters. -/
def bracketScan : Bool → List Char → List Char × Bool
  | b, [] => ([], b)
  | b, c :: rest =>
    match bracketStep b c with
    | (b2, none) => bracketScan b2 rest
    | (b2, some d) => (d :: (bracketScan b2 rest).1, (bracketScan b2 rest).2)

/-- `TTSInterface._filter_stream_text`
(src/src/open_llm_vtuber/tts/tts_interface.py lines 9-55) on a `str`
input: early return of a falsy (empty) input, then the bracket scan,
then the URL backstop `re.sub`.  The returned pair is the function's
result and the `_in_brackets` field after the call. -/
def filterStreamText (b : Bool) (text : List Char) : List Char × Bool :=
  if text = [] then (text, b)
  else (removeUrls (bracketScan b text).1, (bracketScan b text).2)

/-- `_filter_stream_text` on an `Optional[str]` input: `if not text:
return text` returns a `None` input itself (the state is untouched).
Totality of this definition models that the function raises no
exception. -/
def filterStreamTextOpt (b : Bool) (t : Option (List Char)) :
    Option (List Char) × Bool :=
  match t with
  | none => (none, b)
  | some l => (some (filterStreamText b l).1, (filterStreamText b l).2)

/-- Feeding a sequence of fragments of one session through the bracket
scan only, threading `_in_brackets` across calls. -/
def sessionScan : Bool → List (List Char) → List (List Char) × Bool
  | b, [] => ([], b)
  | b, f :: fs =>
    ((bracketScan b f).1 :: (sessionScan (bracketScan b f).2 fs).1,
     (sessionScan (bracketScan b f).2 fs).2)

/-- Feeding a sequence of fragments of one session through the full
filter `_filter_stream_text`, threading `_in_brackets` across calls:
the list of returned fragments and the final state. -/
def sessionRun : Bool → List (List Char) → List (List Char) × Bool
  | b, [] => ([], b)
  | b, f :: fs =>
    ((filterStreamText b f).1 :: (sessionRun (filterStreamText b f).2 fs).1,
     (sessionRun (filterStreamText b f).2 fs).2)

/-- Python `str.replace(old, '')` for a two-character pattern `[a, b]`
(src/src/open_llm_vtuber/tts/siliconflow_tts.py lines 39-40): one pass
over the original string, deleting non-overlapping occurrences left to
right; the result is not rescanned. -/
def replacePair (a b : Char) : List Char → List Char
  | [] => []
  | [c] => [c]
  | c :: d :: rest =>
    if c = a ∧ d = b then replacePair a b rest
    else c :: replacePair a b (d :: rest)

/-- The link-interception cleanup of `SiliconFlowTTS.generate_audio`
(src/src/open_llm_vtuber/tts/siliconflow_tts.py lines 36-40): URL
`re.sub`, then removal of the literal empty pairs `()`, `（）`, `[]`,
`【】`, in that order. -/
def sfCleanup (text : List Char) : List Char :=
  replacePair '【' '】'
    (replacePair '[' ']'
      (replacePair '（' '）'
        (replacePair '(' ')' (removeUrls text))))

/-- Constructor arguments of `SiliconFlowTTS`
(src/src/open_llm_vtuber/tts/siliconflow_tts.py lines 8-28).  `speed`
and `gain` are opaque numeric settings forwarded to the payload. -/
structure SFConfig where
  apiUrl : Option (List Char)
  apiKey : List Char
  defaultModel : List Char
  defaultVoice : List Char
  sampleRate : Nat
  responseFormat : List Char
  stream : Bool
  speed : Int
  gain : Int
deriving DecidableEq

/-- The request payload dict built by `SiliconFlowTTS.generate_audio`
(src/src/open_llm_vtuber/tts/siliconflow_tts.py lines 57-66). -/
structure SFPayload where
  input : List Char
  responseFormat : List Char
  sampleRate : Nat
  stream : Bool
  speed : Int
  gain : Int
  model : List Char
  voice : List Char
deriving DecidableEq

/-- Builds the payload from the configuration and the cleaned text,
field for field as in lines 57-66 of siliconflow_tts.py. -/
def mkPayload (cfg : SFConfig) (input : List Char) : SFPayload :=
  { input := input
    responseFormat := cfg.responseFormat
    sampleRate := cfg.sampleRate
    stream := cfg.stream
    speed := cfg.speed
    gain := cfg.gain
    model := cfg.defaultModel
    voice := cfg.defaultVoice }

/-- Outcome of the external HTTP/filesystem interaction inside the
`try` block (siliconflow_tts.py lines 73-87), supplied as a parameter of
the model: a success carries the response body; the three failure cases
are `requests.request` raising, `raise_for_status` raising, and the
cache-file `open` raising. -/
inductive NetOutcome where
  | ok (content : List Char)
  | netError
  | httpError
  | fsError
deriving DecidableEq

/-- A caught Python exception (the `except Exception` in
siliconflow_tts.py line 85). -/
inductive PyExn where
  | exn
deriving DecidableEq

/-- `TTSInterface.generate_cache_file_name`
(src/src/open_llm_vtuber/tts/tts_interface.py lines 96-108):
`cache/<hint or "temp">.<extension>`. -/
def cacheFileName (hint : Option (List Char)) (ext : List Char) : List Char :=
  "cache/".data ++ hint.getD "temp".data ++ ".".data ++ ext

/-- The body of the `try` block of `SiliconFlowTTS.generate_audio`
(lines 73-84) as a fallible computation: a missing `api_url` returns
`""` normally, a successful request returns the cache-file path, and
every failure raises. -/
def sfTryBody (cfg : SFConfig) (outcome : NetOutcome) (cacheFile : List Char) :
    Except PyExn (List Char) :=
  match cfg.apiUrl with
  | none => .ok []
  | some _ =>
    match outcome with
    | .ok _ => .ok cacheFile
    | _ => .error .exn

/-- Observable behaviour of one `SiliconFlowTTS.generate_audio` call:
the returned string, the payload if one was built, whether the HTTP
request was issued, and whether the cache file was created. -/
structure SFRun where
  result : List Char
  payload : Option SFPayload
  httpRequested : Bool
  cacheFileWritten : Bool
deriving DecidableEq

/-- `SiliconFlowTTS.generate_audio`
(src/src/open_llm_vtuber/tts/siliconflow_tts.py lines 30-87): cleanup,
early return when the cleaned text strips to empty (no payload, no
request, no file), otherwise the `try` block with every exception caught
and converted to `""`. -/
def sfGenerateAudio (cfg : SFConfig) (outcome : NetOutcome) (text : List Char)
    (hint : Option (List Char)) : SFRun :=
  if pyStrip (sfCleanup text) = [] then
    { result := [], payload := none, httpRequested := false,
      cacheFileWritten := false }
  else
    { result :=
        match sfTryBody cfg outcome (cacheFileName hint cfg.responseFormat) with
        | .ok p => p
        | .error _ => []
      payload := some (mkPayload cfg (sfCleanup text))
      httpRequested := cfg.apiUrl.isSome
      cacheFileWritten :=
        cfg.apiUrl.isSome && match outcome with | .ok _ => true | _ => false }

/-- Observable behaviour of one `TTSInterface.async_generate_audio`
dispatch: the backend run and whether the backend method was invoked. -/
structure DispatchRun where
  run : SFRun
  backendInvoked : Bool
deriving DecidableEq

/-- `TTSInterface.async_generate_audio`
(src/src/open_llm_vtuber/tts/tts_interface.py lines 57-67): filter the
text through `_filter_stream_text`, then unconditionally hand the safe
text to the backend `generate_audio` (the code deliberately forwards
even an empty string instead of skipping, see the comment at lines
65-66), returning its result; the second component is the filter state
after the call. -/
def asyncGenerateAudio (cfg : SFConfig) (outcome : NetOutcome) (b : Bool)
    (text : List Char) (hint : Option (List Char)) : DispatchRun × Bool :=
  ({ run := sfGenerateAudio cfg outcome (filterStreamText b text).1 hint,
     backendInvoked := true },
   (filterStreamText b text).2)

/-- Whether an outcome is one of the failures of the backend operation. -/
def isFailure : NetOutcome → Bool
  | .ok _ => false
  | _ => true

/-- A concrete configuration used for closed witness statements. -/
def cfgEx : SFConfig :=
  { apiUrl := some "https://api.siliconflow.example/v1/audio/speech".data
    apiKey := "key".data
    defaultModel := "m1".data
    defaultVoice := "v1".data
    sampleRate := 32000
    responseFormat := "mp3".data
    stream := false
    speed := 1
    gain := 0 }

/-- The external similarity-search collaborator of the RAG agent
(`self.vector_store.similarity_search`), modelled as a function that may
raise (`Except.error`) or return an ordered list of document contents. -/
def SearchFn : Type := List Char → Nat → Except Unit (List (List Char))

/-- `RAGAgent._retrieve_context`
(src/src/open_llm_vtuber/agent/agents/rag_agent.py lines 39-55): empty
string when the store is absent, when the search raises, or when it
returns no documents; otherwise the fragments are numbered
`资料<i+1>: <content>` and joined with blank lines. -/
def retrieveContext (store : Option SearchFn) (query : List Char) (k : Nat) :
    List Char :=
  match store with
  | none => []
  | some search =>
    match search query k with
    | .error _ => []
    | .ok [] => []
    | .ok docs =>
      List.intercalate "\n\n".data
        (docs.enum.map
          (fun p => "资料".data ++ (Nat.repr (p.1 + 1)).data ++ ": ".data ++ p.2))

/-- One element of a multimodal message content list (a dict with a
`type` key and, for text items, a `text` key). -/
structure ContentItem where
  itype : List Char
  text : List Char
deriving DecidableEq

/-- A message's `content`: either a plain string or a multimodal list
(rag_agent.py lines 100-108). -/
inductive MsgContent where
  | text (s : List Char)
  | parts (items : List ContentItem)
deriving DecidableEq

/-- A chat message dict with `role` and `content`. -/
structure Message where
  role : List Char
  content : MsgContent
deriving DecidableEq

/-- The loop of rag_agent.py lines 105-108: set the `text` of the first
item whose `type` is `text`, then `break`. -/
def setFirstText (newText : List Char) : List ContentItem → List ContentItem
  | [] => []
  | i :: rest =>
    if i.itype = "text".data then { i with text := newText } :: rest
    else i :: setFirstText newText rest

/-- Lines 101-108: a string content is replaced outright; a list content
has its first text item rewritten. -/
def replaceContent (c : MsgContent) (newText : List Char) : MsgContent :=
  match c with
  | .text _ => .text newText
  | .parts items => .parts (setFirstText newText items)

/-- Lines 86-107: if the message list is nonempty and its last message
has role `user`, rewrite that last message's content; otherwise leave
the list alone. -/
def augmentLast (msgs : List Message) (newText : List Char) : List Message :=
  match msgs.getLast? with
  | none => msgs
  | some last =>
    if last.role = "user".data then
      msgs.dropLast ++ [{ last with content := replaceContent last.content newText }]
    else msgs

/-- The augmented prompt string built at rag_agent.py lines 91-97. -/
def augmentedContent (dateInfo context userText : List Char) : List Char :=
  "【系统时间】\n现在是：".data ++ dateInfo ++
  "\n\n【参考资料】\n".data ++ context ++
  "\n\n【用户问题】\n".data ++ userText ++
  "\n\n请优先基于上述参考资料回答用户问题。如果资料不足，再使用你的通用知识。对于涉及相对日期的问题（如“明天”），请务必根据【系统时间】进行推算。".data

/-- `RAGAgent._to_messages`
(src/src/open_llm_vtuber/agent/agents/rag_agent.py lines 57-110) as a
function of the base messages produced by the parent class, the user
text, the store, and the date string (the wall clock is an input of the
model): retrieval and augmentation happen only when the user text is
nonempty, the store is present, and the retrieved context is nonempty;
in every other case the base messages are returned unchanged. -/
def ragToMessages (base : List Message) (userText : List Char)
    (store : Option SearchFn) (dateInfo : List Char) : List Message :=
  match store, userText with
  | some _, _ :: _ =>
    if retrieveContext store userText 3 = [] then base
    else
      augmentLast base
        (augmentedContent dateInfo (retrieveContext store userText 3) userText)
  | _, _ => base

/-- A concrete message used for closed witness statements. -/
def msgEx : Message :=
  { role := "user".data, content := MsgContent.text "明天有什么课".data }

/-- A concrete always-raising search collaborator used for closed
witness statements. -/
def fErrEx : SearchFn := fun _ _ => Except.error ()

/-- Claim C2 (confirmed): filtering the fragment `"A(B"` and then the
fragment `"C)D"` through two consecutive calls on the same session,
starting from the initial Speaking state, returns `"A"` and then `"D"`:
the suppression state set by the opening bracket persists across the
fragment boundary. -/
theorem c2_fragment_boundary :
    sessionRun false ["A(B".data, "C)D".data] = (["A".data, "D".data], false) := by
  decide

/-- Claim C3, counterexample: the claim (and the spec's state-machine
table cell) says that in the Speaking state (`inBrackets = false`) a
closing bracket transitions to the Suppressing state, i.e. that
`bracketStep false ')'` is `(true, none)`.  The code sets
`_in_brackets = False`, so the state stays Speaking, for the ASCII and
the full-width closing bracket alike; moreover after `")X"` the `X` is
spoken, which the claimed transition would suppress. -/
theorem c3_close_in_speaking_counterexample :
    ¬ bracketStep false ')' = (true, none) ∧
    ¬ bracketStep false '）' = (true, none) ∧
    (bracketScan false ")X".data).1 = "X".data := by
  decide

/-- Claim C3 (amended): when the filter is in the Speaking state and
scans a closing bracket (`)` or `）`), it REMAINS in the Speaking state
(the assignment `_in_brackets = False` is a no-op transition) and drops
the character from the output. -/
theorem c3_close_in_speaking_amended :
    bracketStep false ')' = (false, none) ∧
    bracketStep false '）' = (false, none) := by
  decide

/-- Claim C4, counterexample: the claim says a null/absent text input
returns the empty string.  The code's `if not text: return text` returns
the `None` input itself, not `""`: the first component of the model on
`none` is `none`, not `some []`. -/
theorem c4_null_input_counterexample :
    ¬ (filterStreamTextOpt false none).1 = some [] := by
  decide

/-- Claim C4 (amended): `_filter_stream_text` raises no exception for
any optional-text input (the model is a total function); an empty-string
input returns the empty string and a null/absent input returns the null
value itself — the falsy input is returned unchanged, deterministically,
with the session state untouched. -/
theorem c4_falsy_input_amended (b : Bool) :
    filterStreamTextOpt b none = (none, b) ∧
    filterStreamTextOpt b (some []) = (some [], b) := by
  cases b <;> decide

/-- Claim C1, counterexample: the claimed invariant fails on three
counts.  (1) The session `["ftp://x"]` emits `"ftp://x"`, a literal URL
of the form `scheme://` + non-whitespace: the backstop only removes
`http(s)://`.  (2) The session `["http:/", "/x.com"]` emits `"http:/"`
then `"/x.com"`, whose concatenation contains the literal URL
`http://x.com`: the backstop runs per fragment.  (3) The session
`["((x)y)"]` emits `"y"`, which in the input lay between the outer
opening bracket and its matching closing bracket: the one-boolean state
machine closes the suppression at the first (inner) closing bracket. -/
theorem c1_invariant_counterexample :
    (sessionRun false ["ftp://x".data]).1.flatten = "ftp://x".data ∧
    hasSchemeUrl "ftp://x".data = true ∧
    (sessionRun false ["http:/".data, "/x.com".data]).1.flatten = "http://x.com".data ∧
    hasSchemeUrl "http://x.com".data = true ∧
    (sessionRun false ["((x)y)".data]).1.flatten = "y".data := by
  decide

/-- Claim C6, counterexample: the claim says that for an input whose
filtered form is empty the dispatcher returns without invoking the
backend's synchronous synthesis operation.  `async_generate_audio`
always invokes `generate_audio` (it deliberately forwards the empty
string, see tts_interface.py lines 65-67), so `backendInvoked` is not
`false` on the claim's own example input `"(only link content)"`. -/
theorem c6_skip_dispatch_counterexample :
    ¬ (asyncGenerateAudio cfgEx (NetOutcome.ok []) false
        "(only link content)".data none).1.backendInvoked = false := by
  decide

/-- Claim C10, counterexample: the claim says the text placed in the
request payload never contains an `http(s)://` URL nor a literal empty
bracket pair.  Both fail: cleaning `"htt()p://x"` glues the pieces into
`"http://x"` (the bracket-pair removal runs after the URL removal and
can create a URL), and cleaning `"(())"` leaves the literal pair `"()"`
(Python's `str.replace` is a single non-rescanning pass, so the outer
pair of a nested pair survives). -/
theorem c10_payload_cleanup_counterexample :
    sfCleanup "htt()p://x".data = "http://x".data ∧
    hasUrl "http://x".data = true ∧
    sfCleanup "(())".data = "()".data := by
  decide

/-- `startsWith p l` holds exactly when `l` is `p` followed by a tail. -/
theorem startsWith_iff (p l : List Char) :
    startsWith p l = true ↔ ∃ t, l = p ++ t := by
  induction p generalizing l with
  | nil => simp [startsWith]
  | cons a ps ih =>
    cases l with
    | nil => simp [startsWith]
    | cons c cs =>
      simp only [startsWith, Bool.and_eq_true, beq_iff_eq, ih, List.cons_append,
        List.cons.injEq]
      constructor
      · rintro ⟨rfl, t, rfl⟩; exact ⟨t, rfl, rfl⟩
      · rintro ⟨t, rfl, rfl⟩; exact ⟨rfl, t, rfl⟩

/-- A regex match can only start at an `h`. -/
theorem urlAt_cons_head {c : Char} {l : List Char}
    (h : urlAt (c :: l) = true) : c = 'h' := by
  unfold urlAt at h
  rw [Bool.or_eq_true, Bool.and_eq_true, Bool.and_eq_true] at h
  rcases h with h | h
  · obtain ⟨t, ht⟩ := (startsWith_iff _ _).mp h.1
    simp only [httpsPref, List.cons_append, List.cons.injEq] at ht
    exact ht.1
  · obtain ⟨t, ht⟩ := (startsWith_iff _ _).mp h.1
    simp only [httpPref, List.cons_append, List.cons.injEq] at ht
    exact ht.1

/-- A regex match has positive length. -/
theorem urlLen_pos {l : List Char} (h : urlAt l = true) : 0 < urlLen l := by
  unfold urlAt at h
  unfold urlLen
  rw [Bool.or_eq_true] at h
  rcases h with h | h
  · rw [if_pos h]; omega
  · by_cases h8 : (startsWith httpsPref l && headNonWs (l.drop 8)) = true
    · rw [if_pos h8]; omega
    · rw [if_neg h8, if_pos h]; omega

/-- The character right after the maximal non-whitespace run, if any, is
whitespace: the greedy `\S+` cannot be extended. -/
theorem nonwsRun_drop : ∀ xs : List Char,
    xs.drop (nonwsRun xs) = [] ∨
    ∃ w z, xs.drop (nonwsRun xs) = w :: z ∧ isPySpace w = true := by
  intro xs
  induction xs with
  | nil => left; rfl
  | cons c rest ih =>
    by_cases h : isPySpace c = true
    · right; exact ⟨c, rest, by simp [nonwsRun, h], h⟩
    · have e : nonwsRun (c :: rest) = nonwsRun rest + 1 := by simp [nonwsRun, h]
      rw [e, List.drop_succ_cons]
      exact ih

/-- The character right after a regex match, if any, is whitespace. -/
theorem urlLen_drop {l : List Char} (h : urlAt l = true) :
    l.drop (urlLen l) = [] ∨
    ∃ w z, l.drop (urlLen l) = w :: z ∧ isPySpace w = true := by
  unfold urlAt at h
  unfold urlLen
  rw [Bool.or_eq_true] at h
  rcases h with h | h
  · rw [if_pos h]
    have e : l.drop (8 + nonwsRun (l.drop 8)) =
        (l.drop 8).drop (nonwsRun (l.drop 8)) := by
      rw [List.drop_drop, Nat.add_comm]
    rw [e]
    exact nonwsRun_drop (l.drop 8)
  · by_cases h8 : (startsWith httpsPref l && headNonWs (l.drop 8)) = true
    · rw [if_pos h8]
      have e : l.drop (8 + nonwsRun (l.drop 8)) =
          (l.drop 8).drop (nonwsRun (l.drop 8)) := by
        rw [List.drop_drop, Nat.add_comm]
      rw [e]
      exact nonwsRun_drop (l.drop 8)
    · rw [if_neg h8, if_pos h]
      have e : l.drop (7 + nonwsRun (l.drop 7)) =
          (l.drop 7).drop (nonwsRun (l.drop 7)) := by
        rw [List.drop_drop, Nat.add_comm]
      rw [e]
      exact nonwsRun_drop (l.drop 7)

/-- A positive skip count just drops that many characters before the
scan resumes. -/
theorem removeUrlsAux_skip : ∀ (l : List Char) (k : Nat),
    removeUrlsAux k l = removeUrlsAux 0 (l.drop k) := by
  intro l
  induction l with
  | nil => intro k; cases k <;> rfl
  | cons c rest ih =>
    intro k
    cases k with
    | zero => rfl
    | succ k =>
      have e : removeUrlsAux (k + 1) (c :: rest) = removeUrlsAux k rest := rfl
      rw [e, List.drop_succ_cons]
      exact ih k

/-- `removeUrls` on the empty string. -/
theorem removeUrls_nil : removeUrls [] = [] := rfl

/-- `removeUrls` when a match starts at the head: the whole match is
deleted and scanning resumes after it. -/
theorem removeUrls_cons_pos {c : Char} {rest : List Char}
    (h : urlAt (c :: rest) = true) :
    removeUrls (c :: rest) =
      removeUrls ((c :: rest).drop (urlLen (c :: rest))) := by
  have e1 : removeUrls (c :: rest) =
      removeUrlsAux (urlLen (c :: rest) - 1) rest := by
    show removeUrlsAux 0 (c :: rest) = _
    simp [removeUrlsAux, h]
  obtain ⟨m, hm⟩ : ∃ m, urlLen (c :: rest) = m + 1 :=
    ⟨urlLen (c :: rest) - 1, by have := urlLen_pos h; omega⟩
  rw [e1, removeUrlsAux_skip, hm]
  rfl

/-- `removeUrls` when no match starts at the head: the character is kept
and scanning continues. -/
theorem removeUrls_cons_neg {c : Char} {rest : List Char}
    (h : urlAt (c :: rest) = false) :
    removeUrls (c :: rest) = c :: removeUrls rest := by
  show removeUrlsAux 0 (c :: rest) = _
  simp [removeUrlsAux, h]
  rfl

/-- If the output of `removeUrls` starts with a non-whitespace character
`c`, then the input starts with that same character, no match starts
there, and the rest of the output is `removeUrls` of the rest of the
input.  (A deleted match is always followed by whitespace or the end of
the string, so a deletion can never be glued directly onto a
non-whitespace output character.) -/
theorem removeUrls_cons_structure {m : List Char} {c : Char} {t : List Char}
    (hc : isPySpace c = false) (h : removeUrls m = c :: t) :
    ∃ m1, m = c :: m1 ∧ removeUrls m1 = t := by
  cases m with
  | nil => rw [removeUrls_nil] at h; exact absurd h (by simp)
  | cons d rest =>
    by_cases hu : urlAt (d :: rest) = true
    · exfalso
      rw [removeUrls_cons_pos hu] at h
      rcases urlLen_drop hu with hD | ⟨w, z, hD, hw⟩
      · rw [hD, removeUrls_nil] at h
        exact absurd h (by simp)
      · rw [hD] at h
        have hwu : urlAt (w :: z) = false := by
          by_contra hx
          have hx2 : urlAt (w :: z) = true := by simpa using hx
          have hwh : w = 'h' := urlAt_cons_head hx2
          rw [hwh] at hw
          exact absurd hw (by decide)
        rw [removeUrls_cons_neg hwu] at h
        injection h with h1 _
        rw [h1] at hw
        rw [hw] at hc
        exact absurd hc (by simp)
    · have hu2 : urlAt (d :: rest) = false := by simpa using hu
      rw [removeUrls_cons_neg hu2] at h
      injection h with h1 h2
      exact ⟨rest, by rw [h1], h2⟩

/-- Iterated form of `removeUrls_cons_structure`: a non-whitespace
block at the front of the output is a verbatim contiguous block at the
front of the input. -/
theorem removeUrls_block_structure : ∀ (p : List Char),
    (∀ c ∈ p, isPySpace c = false) → ∀ (m t : List Char),
    removeUrls m = p ++ t → ∃ m2, m = p ++ m2 ∧ removeUrls m2 = t := by
  intro p
  induction p with
  | nil => intro _ m t h; exact ⟨m, rfl, by simpa using h⟩
  | cons c p2 ih =>
    intro hp m t h
    rw [List.cons_append] at h
    obtain ⟨m1, hm1, hrest⟩ := removeUrls_cons_structure (hp c (by simp)) h
    obtain ⟨m2, hm2, ht⟩ := ih (fun x hx => hp x (by simp [hx])) m1 t hrest
    exact ⟨m2, by rw [hm1, hm2, List.cons_append], ht⟩

/-- Key step: if no match starts at `c :: rest`, then none starts at
`c :: removeUrls rest` either — deleting later matches cannot create a
new match at the current position. -/
theorem urlAt_cons_removeUrls {c : Char} {rest : List Char}
    (h : urlAt (c :: rest) = false) :
    urlAt (c :: removeUrls rest) = false := by
  by_contra hx
  have hx2 : urlAt (c :: removeUrls rest) = true := by simpa using hx
  unfold urlAt at hx2
  rw [Bool.or_eq_true, Bool.and_eq_true, Bool.and_eq_true] at hx2
  rcases hx2 with ⟨h1, h2⟩ | ⟨h1, h2⟩
  · -- https alternative
    obtain ⟨t, ht⟩ := (startsWith_iff _ _).mp h1
    simp only [httpsPref, List.cons_append, List.nil_append,
      List.cons.injEq] at ht
    obtain ⟨hch, hout⟩ := ht
    have hdrop : (c :: removeUrls rest).drop 8 = t := by rw [hout]; rfl
    rw [hdrop] at h2
    cases t with
    | nil => exact absurd h2 (by simp [headNonWs])
    | cons x t2 =>
      have hxws : isPySpace x = false := by simpa [headNonWs] using h2
      have hout2 : removeUrls rest =
          (['t', 't', 'p', 's', ':', '/', '/'] ++ [x]) ++ t2 := by
        simp only [List.append_assoc, List.cons_append, List.nil_append]
        exact hout
      have hall : ∀ ch ∈ (['t', 't', 'p', 's', ':', '/', '/'] ++ [x]),
          isPySpace ch = false := by
        intro ch hch2
        rcases List.mem_append.mp hch2 with hin | hin
        · have e : ch = 't' ∨ ch = 't' ∨ ch = 'p' ∨ ch = 's' ∨ ch = ':' ∨
              ch = '/' ∨ ch = '/' := by simpa using hin
          rcases e with h' | h' | h' | h' | h' | h' | h' <;> subst h' <;> decide
        · have e : ch = x := by simpa using hin
          subst e; exact hxws
      obtain ⟨m2, hm2, _⟩ :=
        removeUrls_block_structure _ hall rest t2 hout2
      have hrest2 : rest = 't' :: 't' :: 'p' :: 's' :: ':' :: '/' :: '/' :: x :: m2 := by
        simpa using hm2
      apply absurd h
      rw [hch, hrest2]
      have e2 : urlAt ('h' :: 't' :: 't' :: 'p' :: 's' :: ':' :: '/' :: '/' :: x :: m2)
          = true := by
        unfold urlAt
        rw [Bool.or_eq_true, Bool.and_eq_true, Bool.and_eq_true]
        left
        refine ⟨(startsWith_iff _ _).mpr ⟨x :: m2, rfl⟩, ?_⟩
        show headNonWs (x :: m2) = true
        simp [headNonWs, hxws]
      simp [e2]
  · -- http alternative
    obtain ⟨t, ht⟩ := (startsWith_iff _ _).mp h1
    simp only [httpPref, List.cons_append, List.nil_append,
      List.cons.injEq] at ht
    obtain ⟨hch, hout⟩ := ht
    have hdrop : (c :: removeUrls rest).drop 7 = t := by rw [hout]; rfl
    rw [hdrop] at h2
    cases t with
    | nil => exact absurd h2 (by simp [headNonWs])
    | cons x t2 =>
      have hxws : isPySpace x = false := by simpa [headNonWs] using h2
      have hout2 : removeUrls rest =
          (['t', 't', 'p', ':', '/', '/'] ++ [x]) ++ t2 := by
        simp only [List.append_assoc, List.cons_append, List.nil_append]
        exact hout
      have hall : ∀ ch ∈ (['t', 't', 'p', ':', '/', '/'] ++ [x]),
          isPySpace ch = false := by
        intro ch hch2
        rcases List.mem_append.mp hch2 with hin | hin
        · have e : ch = 't' ∨ ch = 't' ∨ ch = 'p' ∨ ch = ':' ∨
              ch = '/' ∨ ch = '/' := by simpa using hin
          rcases e with h' | h' | h' | h' | h' | h' <;> subst h' <;> decide
        · have e : ch = x := by simpa using hin
          subst e; exact hxws
      obtain ⟨m2, hm2, _⟩ :=
        removeUrls_block_structure _ hall rest t2 hout2
      have hrest2 : rest = 't' :: 't' :: 'p' :: ':' :: '/' :: '/' :: x :: m2 := by
        simpa using hm2
      apply absurd h
      rw [hch, hrest2]
      have e2 : urlAt ('h' :: 't' :: 't' :: 'p' :: ':' :: '/' :: '/' :: x :: m2)
          = true := by
        unfold urlAt
        rw [Bool.or_eq_true, Bool.and_eq_true, Bool.and_eq_true]
        right
        refine ⟨(startsWith_iff _ _).mpr ⟨x :: m2, rfl⟩, ?_⟩
        show headNonWs (x :: m2) = true
        simp [headNonWs, hxws]
      simp [e2]

/-- Completeness of the URL backstop: after
`re.sub(r'https?://\S+', '', text)` no match of the pattern remains
anywhere in the text. -/
theorem hasUrl_removeUrls (l : List Char) : hasUrl (removeUrls l) = false := by
  have H : ∀ n, ∀ l : List Char, l.length ≤ n → hasUrl (removeUrls l) = false := by
    intro n
    induction n with
    | zero =>
      intro l hl
      have e : l = [] := List.length_eq_zero.mp (Nat.le_zero.mp hl)
      subst e; rfl
    | succ n ih =>
      intro l hl
      cases l with
      | nil => rfl
      | cons c rest =>
        by_cases hu : urlAt (c :: rest) = true
        · rw [removeUrls_cons_pos hu]
          apply ih
          have hp := urlLen_pos hu
          rw [List.length_drop]
          simp only [List.length_cons] at hl ⊢
          omega
        · have hu2 : urlAt (c :: rest) = false := by simpa using hu
          rw [removeUrls_cons_neg hu2]
          have e : hasUrl (c :: removeUrls rest) =
              (urlAt (c :: removeUrls rest) || hasUrl (removeUrls rest)) := rfl
          rw [e, urlAt_cons_removeUrls hu2,
            ih rest (by simp only [List.length_cons] at hl; omega)]
          rfl
  exact H l.length l le_rfl

/-- On text without any `https?://\S+` match the backstop is the
identity. -/
theorem removeUrls_id_of_no_url : ∀ l : List Char,
    hasUrl l = false → removeUrls l = l := by
  intro l
  induction l with
  | nil => intro _; rfl
  | cons c rest ih =>
    intro h
    have e : hasUrl (c :: rest) = (urlAt (c :: rest) || hasUrl rest) := rfl
    rw [e, Bool.or_eq_false_iff] at h
    rw [removeUrls_cons_neg h.1, ih h.2]

/-- The backstop only deletes characters. -/
theorem removeUrlsAux_sublist : ∀ (l : List Char) (k : Nat),
    List.Sublist (removeUrlsAux k l) l := by
  intro l
  induction l with
  | nil => intro k; cases k <;> simp [removeUrlsAux]
  | cons c rest ih =>
    intro k
    cases k with
    | zero =>
      by_cases hu : urlAt (c :: rest) = true
      · have e : removeUrlsAux 0 (c :: rest) =
            removeUrlsAux (urlLen (c :: rest) - 1) rest := by
          simp [removeUrlsAux, hu]
        rw [e]
        exact (ih _).cons c
      · have e : removeUrlsAux 0 (c :: rest) = c :: removeUrlsAux 0 rest := by
          simp [removeUrlsAux, hu]
        rw [e]
        exact (ih 0).cons₂ c
    | succ k =>
      have e : removeUrlsAux (k + 1) (c :: rest) = removeUrlsAux k rest := rfl
      rw [e]
      exact (ih k).cons c

/-- The backstop only deletes characters. -/
theorem removeUrls_sublist (l : List Char) : List.Sublist (removeUrls l) l :=
  removeUrlsAux_sublist l 0

/-- `str.replace(pair, '')` only deletes characters. -/
theorem replacePair_sublist (a b : Char) : ∀ l : List Char,
    List.Sublist (replacePair a b l) l := by
  have H : ∀ n, ∀ l : List Char, l.length ≤ n → List.Sublist (replacePair a b l) l := by
    intro n
    induction n with
    | zero =>
      intro l hl
      have e : l = [] := List.length_eq_zero.mp (Nat.le_zero.mp hl)
      subst e; simp [replacePair]
    | succ n ih =>
      intro l hl
      rcases l with _ | ⟨c, _ | ⟨d, rest⟩⟩
      · simp [replacePair]
      · simp [replacePair]
      · by_cases h : c = a ∧ d = b
        · have e : replacePair a b (c :: d :: rest) = replacePair a b rest := by
            simp [replacePair, h]
          rw [e]
          have hn : rest.length ≤ n := by
            simp only [List.length_cons] at hl; omega
          exact ((ih rest hn).cons d).cons c
        · have e : replacePair a b (c :: d :: rest) =
              c :: replacePair a b (d :: rest) := by
            simp [replacePair, h]
          rw [e]
          have hn : (d :: rest).length ≤ n := by
            simp only [List.length_cons] at hl ⊢; omega
          exact (ih _ hn).cons₂ c
  intro l; exact H l.length l le_rfl

/-- The whole SiliconFlow cleanup only deletes characters. -/
theorem sfCleanup_sublist (l : List Char) : List.Sublist (sfCleanup l) l := by
  unfold sfCleanup
  exact ((((replacePair_sublist _ _ _).trans (replacePair_sublist _ _ _)).trans
    (replacePair_sublist _ _ _)).trans (replacePair_sublist _ _ _)).trans
    (removeUrls_sublist l)

/-- `str.strip()` yields the empty string exactly when every character
is whitespace. -/
theorem pyStrip_eq_nil_iff (l : List Char) :
    pyStrip l = [] ↔ ∀ c ∈ l, isPySpace c = true := by
  unfold pyStrip
  rw [List.reverse_eq_nil_iff, List.dropWhile_eq_nil_iff]
  constructor
  · intro h c hc
    have e := List.takeWhile_append_dropWhile (p := isPySpace) (l := l)
    rw [← e] at hc
    rcases List.mem_append.mp hc with hc | hc
    · exact List.mem_takeWhile_imp hc
    · exact h c (List.mem_reverse.mpr hc)
  · intro h c hc
    exact h c ((List.dropWhile_sublist _).subset (List.mem_reverse.mp hc))

/-- Scanning an opening bracket: state set to suppressing, character
dropped. -/
theorem bracketScan_open {c : Char} (h : isOpenBracket c = true)
    (b : Bool) (rest : List Char) :
    bracketScan b (c :: rest) = bracketScan true rest := by
  simp [bracketScan, bracketStep, h]

/-- Scanning a closing bracket: state set to speaking, character
dropped. -/
theorem bracketScan_close {c : Char} (h1 : isOpenBracket c = false)
    (h2 : isCloseBracket c = true) (b : Bool) (rest : List Char) :
    bracketScan b (c :: rest) = bracketScan false rest := by
  simp [bracketScan, bracketStep, h1, h2]

/-- Scanning an ordinary character while suppressing: dropped. -/
theorem bracketScan_sup {c : Char} (h1 : isOpenBracket c = false)
    (h2 : isCloseBracket c = false) (rest : List Char) :
    bracketScan true (c :: rest) = bracketScan true rest := by
  simp [bracketScan, bracketStep, h1, h2]

/-- Scanning an ordinary character while speaking: emitted. -/
theorem bracketScan_emit {c : Char} (h1 : isOpenBracket c = false)
    (h2 : isCloseBracket c = false) (rest : List Char) :
    bracketScan false (c :: rest) =
      (c :: (bracketScan false rest).1, (bracketScan false rest).2) := by
  simp [bracketScan, bracketStep, h1, h2]

/-- The character scan is compositional: scanning a concatenation is
scanning the first part and then the second from the resulting state.
This is the exact sense in which the per-session state makes the
fragment boundaries invisible to the suppression logic. -/
theorem bracketScan_append : ∀ (xs : List Char) (b : Bool) (ys : List Char),
    bracketScan b (xs ++ ys) =
      ((bracketScan b xs).1 ++ (bracketScan (bracketScan b xs).2 ys).1,
       (bracketScan (bracketScan b xs).2 ys).2) := by
  intro xs
  induction xs with
  | nil => intro b ys; simp [bracketScan]
  | cons c xs ih =>
    intro b ys
    by_cases h1 : isOpenBracket c = true
    · rw [List.cons_append, bracketScan_open h1, bracketScan_open h1, ih]
    · have h1' : isOpenBracket c = false := by simpa using h1
      by_cases h2 : isCloseBracket c = true
      · rw [List.cons_append, bracketScan_close h1' h2, bracketScan_close h1' h2,
          ih]
      · have h2' : isCloseBracket c = false := by simpa using h2
        cases b with
        | true =>
          rw [List.cons_append, bracketScan_sup h1' h2', bracketScan_sup h1' h2',
            ih]
        | false =>
          rw [List.cons_append, bracketScan_emit h1' h2', bracketScan_emit h1' h2',
            ih]
          simp

/-- Bracket characters themselves never appear in the scan output. -/
theorem bracketScan_output_no_brackets : ∀ (l : List Char) (b : Bool) (c : Char),
    c ∈ (bracketScan b l).1 → isOpenBracket c = false ∧ isCloseBracket c = false := by
  intro l
  induction l with
  | nil => intro b c hc; simp [bracketScan] at hc
  | cons d rest ih =>
    intro b c hc
    by_cases h1 : isOpenBracket d = true
    · rw [bracketScan_open h1] at hc; exact ih true c hc
    · have h1' : isOpenBracket d = false := by simpa using h1
      by_cases h2 : isCloseBracket d = true
      · rw [bracketScan_close h1' h2] at hc; exact ih false c hc
      · have h2' : isCloseBracket d = false := by simpa using h2
        cases b with
        | true => rw [bracketScan_sup h1' h2'] at hc; exact ih true c hc
        | false =>
          rw [bracketScan_emit h1' h2'] at hc
          rcases List.mem_cons.mp hc with rfl | hc
          · exact ⟨h1', h2'⟩
          · exact ih false c hc

/-- While the state is suppressing, a fragment with no closing bracket
produces no output and leaves the state suppressing. -/
theorem bracketScan_suppress : ∀ l : List Char,
    (∀ c ∈ l, isCloseBracket c = false) → bracketScan true l = ([], true) := by
  intro l
  induction l with
  | nil => intro _; rfl
  | cons c rest ih =>
    intro h
    by_cases h1 : isOpenBracket c = true
    · rw [bracketScan_open h1]; exact ih (fun x hx => h x (by simp [hx]))
    · have h1' : isOpenBracket c = false := by simpa using h1
      rw [bracketScan_sup h1' (h c (by simp))]
      exact ih (fun x hx => h x (by simp [hx]))

/-- From the speaking state, a fragment with no bracket characters
passes through the scan unchanged. -/
theorem bracketScan_plain : ∀ l : List Char,
    (∀ c ∈ l, isOpenBracket c = false ∧ isCloseBracket c = false) →
    bracketScan false l = (l, false) := by
  intro l
  induction l with
  | nil => intro _; rfl
  | cons c rest ih =>
    intro h
    rw [bracketScan_emit (h c (by simp)).1 (h c (by simp)).2,
      ih (fun x hx => h x (by simp [hx]))]

/-- The full filter is the scan followed by the URL backstop; the early
return on the empty string coincides with that composition. -/
theorem filterStreamText_eq (b : Bool) (text : List Char) :
    filterStreamText b text =
      (removeUrls (bracketScan b text).1, (bracketScan b text).2) := by
  cases text with
  | nil => rfl
  | cons c rest => rfl

/-- Per-fragment scanning with the persisted state equals scanning the
concatenation of the session's fragments in one go. -/
theorem sessionScan_flatten : ∀ (frags : List (List Char)) (b : Bool),
    (sessionScan b frags).1.flatten = (bracketScan b frags.flatten).1 ∧
    (sessionScan b frags).2 = (bracketScan b frags.flatten).2 := by
  intro frags
  induction frags with
  | nil => intro b; simp [sessionScan, bracketScan]
  | cons f fs ih =>
    intro b
    have e := bracketScan_append f b fs.flatten
    simp only [sessionScan, List.flatten_cons, List.cons.injEq, e]
    constructor
    · show (bracketScan b f).1 ++ (sessionScan (bracketScan b f).2 fs).1.flatten = _
      rw [(ih _).1]
    · show (sessionScan (bracketScan b f).2 fs).2 = _
      rw [(ih _).2]

/-- The full-filter session run relates to the scan-only session run:
same states, outputs passed through the URL backstop. -/
theorem sessionRun_eq_scan : ∀ (frags : List (List Char)) (b : Bool),
    (sessionRun b frags).1 = (sessionScan b frags).1.map removeUrls ∧
    (sessionRun b frags).2 = (sessionScan b frags).2 := by
  intro frags
  induction frags with
  | nil => intro b; exact ⟨rfl, rfl⟩
  | cons f fs ih =>
    intro b
    simp only [sessionRun, sessionScan, List.map_cons, List.cons.injEq,
      filterStreamText_eq]
    exact ⟨⟨trivial, (ih _).1⟩, (ih _).2⟩

/-- Each fragment returned by the full filter is free of `https?://`
URLs. -/
theorem sessionRun_no_url : ∀ (frags : List (List Char)) (b : Bool)
    (out : List Char), out ∈ (sessionRun b frags).1 → hasUrl out = false := by
  intro frags
  induction frags with
  | nil => intro b out ho; simp [sessionRun] at ho
  | cons f fs ih =>
    intro b out ho
    simp only [sessionRun, List.mem_cons] at ho
    rcases ho with rfl | ho
    · rw [filterStreamText_eq]
      exact hasUrl_removeUrls _
    · exact ih _ out ho

/-- A fragment with no closing bracket, filtered in the suppressing
state, yields the empty string and leaves the state suppressing. -/
theorem filter_suppressed {f : List Char}
    (h : ∀ c ∈ f, isCloseBracket c = false) :
    filterStreamText true f = ([], true) := by
  rw [filterStreamText_eq, bracketScan_suppress f h]
  rfl

/-- A session that is suppressing stays suppressing and silent as long
as no closing bracket arrives. -/
theorem sessionRun_suppressed : ∀ (frags : List (List Char)),
    (∀ f ∈ frags, ∀ c ∈ f, isCloseBracket c = false) →
    (∀ out ∈ (sessionRun true frags).1, out = []) ∧
    (sessionRun true frags).2 = true := by
  intro frags
  induction frags with
  | nil => intro _; exact ⟨by intro out ho; simp [sessionRun] at ho, rfl⟩
  | cons f fs ih =>
    intro h
    have hf := filter_suppressed (h f (by simp))
    have e : sessionRun true (f :: fs) =
        (([] : List Char) :: (sessionRun true fs).1, (sessionRun true fs).2) := by
      simp [sessionRun, hf]
    rw [e]
    obtain ⟨ih1, ih2⟩ := ih (fun g hg => h g (by simp [hg]))
    constructor
    · intro out ho
      rcases List.mem_cons.mp ho with rfl | ho
      · rfl
      · exact ih1 out ho
    · exact ih2

/-- Claim C1 (amended): for every session state and fragment sequence,
(a) per-fragment scanning with the persisted state equals scanning the
concatenated input in one go — the suppression decision never depends on
where the fragment boundaries fall; (b) no bracket character is ever
emitted; (c) while an opening bracket is unclosed, every character up to
the next closing bracket is suppressed; (d) each individual returned
fragment contains no `http://` or `https://` URL substring.  (URLs with
other schemes, `http(s)` URLs split across a fragment boundary, and
text between NESTED matched brackets can appear in the output, per the
counterexample.) -/
theorem c1_invariant_amended (b : Bool) (frags : List (List Char)) :
    ((sessionScan b frags).1.flatten = (bracketScan b frags.flatten).1 ∧
      (sessionScan b frags).2 = (bracketScan b frags.flatten).2) ∧
    (∀ c ∈ (bracketScan b frags.flatten).1,
      isOpenBracket c = false ∧ isCloseBracket c = false) ∧
    (∀ v : List Char, (∀ c ∈ v, isCloseBracket c = false) →
      (bracketScan true v).1 = []) ∧
    (∀ out ∈ (sessionRun b frags).1, hasUrl out = false) := by
  refine ⟨sessionScan_flatten frags b,
    fun c hc => bracketScan_output_no_brackets _ _ c hc,
    fun v hv => ?_,
    fun out ho => sessionRun_no_url frags b out ho⟩
  rw [bracketScan_suppress v hv]

/-- Claim C1 (amended), witness at concrete inputs: the suppressing
state swallows a whole bracket-free fragment, and a concrete returned
fragment of a concrete session is URL-free. -/
theorem c1_invariant_amended_witness :
    (bracketScan true "no closing bracket here".data).1 = [] ∧
    hasUrl "d  end".data = false := by
  have h := c1_invariant_amended false
    ["a(b".data, "c)d http://x.com end".data]
  refine ⟨h.2.2.1 _ (by decide), h.2.2.2 "d  end".data ?_⟩
  decide

/-- Claim C5 (confirmed): after `"A(B"` produced `"A"` and left the
session suppressing, every later fragment containing no closing bracket
character yields the empty string, and the session stays suppressing:
the filter fails closed. -/
theorem c5_fail_closed (frags : List (List Char))
    (h : ∀ f ∈ frags, ∀ c ∈ f, isCloseBracket c = false) :
    filterStreamText false "A(B".data = ("A".data, true) ∧
    (∀ out ∈ (sessionRun true frags).1, out = []) ∧
    (sessionRun true frags).2 = true := by
  exact ⟨by decide, (sessionRun_suppressed frags h).1,
    (sessionRun_suppressed frags h).2⟩

/-- Claim C5, witness: concrete later fragments without closing
brackets. -/
theorem c5_fail_closed_witness :
    filterStreamText false "A(B".data = ("A".data, true) ∧
    (sessionRun true ["X".data, " more text, still muted".data]).2 = true := by
  have h := c5_fail_closed ["X".data, " more text, still muted".data] (by decide)
  exact ⟨h.1, h.2.2⟩

/-- Claim C7 (confirmed, with the hypothesis stated on the code's own
URL pattern): a string containing no bracket character and no
`https?://\S+` match — in particular any already-filtered string —
passes through the filter unchanged from the speaking state, leaving
the state unchanged. -/
theorem c7_idempotence (l : List Char)
    (h1 : ∀ c ∈ l, isOpenBracket c = false ∧ isCloseBracket c = false)
    (h2 : hasUrl l = false) :
    filterStreamText false l = (l, false) := by
  rw [filterStreamText_eq, bracketScan_plain l h1]
  simp [removeUrls_id_of_no_url l h2]

/-- Claim C7, witness at a concrete filtered string. -/
theorem c7_idempotence_witness :
    filterStreamText false "hello world".data = ("hello world".data, false) :=
  c7_idempotence _ (by decide) (by decide)

/-- If the safe text strips to nothing, so does its SiliconFlow
cleanup: the cleanup only deletes characters. -/
theorem pyStrip_sfCleanup_nil {l : List Char} (h : pyStrip l = []) :
    pyStrip (sfCleanup l) = [] := by
  rw [pyStrip_eq_nil_iff] at h ⊢
  intro c hc
  exact h c ((sfCleanup_sublist l).subset hc)

/-- Claim C6 (amended): for every input whose filtered form is empty
after trimming whitespace, the dispatcher still invokes the backend
synthesis method (it deliberately forwards the empty text), and it is
the backend's own empty-text check that produces the empty result with
no payload built, no HTTP request issued and no cache file created. -/
theorem c6_skip_dispatch_amended (cfg : SFConfig) (outcome : NetOutcome)
    (b : Bool) (text : List Char) (hint : Option (List Char))
    (h : pyStrip (filterStreamText b text).1 = []) :
    (asyncGenerateAudio cfg outcome b text hint).1.backendInvoked = true ∧
    (asyncGenerateAudio cfg outcome b text hint).1.run.result = [] ∧
    (asyncGenerateAudio cfg outcome b text hint).1.run.payload = none ∧
    (asyncGenerateAudio cfg outcome b text hint).1.run.httpRequested = false ∧
    (asyncGenerateAudio cfg outcome b text hint).1.run.cacheFileWritten = false := by
  have h2 : pyStrip (sfCleanup (filterStreamText b text).1) = [] :=
    pyStrip_sfCleanup_nil h
  simp [asyncGenerateAudio, sfGenerateAudio, h2]

/-- Claim C6 (amended), witness at the claim's own example input. -/
theorem c6_skip_dispatch_amended_witness :
    (asyncGenerateAudio cfgEx (NetOutcome.ok "audio".data) false
      "(only link content)".data none).1.run.result = [] ∧
    (asyncGenerateAudio cfgEx (NetOutcome.ok "audio".data) false
      "(only link content)".data none).1.run.payload = none ∧
    (asyncGenerateAudio cfgEx (NetOutcome.ok "audio".data) false
      "(only link content)".data none).1.run.httpRequested = false ∧
    (asyncGenerateAudio cfgEx (NetOutcome.ok "audio".data) false
      "(only link content)".data none).1.run.cacheFileWritten = false := by
  have h := c6_skip_dispatch_amended cfgEx (NetOutcome.ok "audio".data) false
    "(only link content)".data none (by decide)
  exact ⟨h.2.1, h.2.2.1, h.2.2.2.1, h.2.2.2.2⟩

/-- Claim C8 (confirmed): every failure of the backend operation — the
request raising, a non-success HTTP status, a filesystem failure — is
raised inside the `try` block (second conjunct) and is caught there and
converted into the empty result surfaced through the dispatcher (first
conjunct); the model being a total function, no exception reaches the
caller. -/
theorem c8_failure_contained (cfg : SFConfig) (outcome : NetOutcome) (b : Bool)
    (text : List Char) (hint : Option (List Char))
    (h : isFailure outcome = true) :
    (asyncGenerateAudio cfg outcome b text hint).1.run.result = [] ∧
    (cfg.apiUrl.isSome = true →
      sfTryBody cfg outcome (cacheFileName hint cfg.responseFormat) =
        Except.error PyExn.exn) := by
  constructor
  · show (sfGenerateAudio cfg outcome (filterStreamText b text).1 hint).result = []
    unfold sfGenerateAudio
    by_cases hp : pyStrip (sfCleanup (filterStreamText b text).1) = []
    · rw [if_pos hp]
    · rw [if_neg hp]
      dsimp only
      unfold sfTryBody
      rcases hA : cfg.apiUrl with _ | u
      · simp [hA]
      · cases outcome with
        | ok content => simp [isFailure] at h
        | netError => simp [hA]
        | httpError => simp [hA]
        | fsError => simp [hA]
  · intro hA
    unfold sfTryBody
    rcases hu : cfg.apiUrl with _ | u
    · rw [hu] at hA; simp at hA
    · cases outcome with
      | ok content => simp [isFailure] at h
      | netError => simp [hu]
      | httpError => simp [hu]
      | fsError => simp [hu]

/-- Claim C8, witness: a network failure on a concrete call surfaces as
the empty result. -/
theorem c8_failure_contained_witness :
    (asyncGenerateAudio cfgEx NetOutcome.netError false
      "hello".data none).1.run.result = [] ∧
    sfTryBody cfgEx NetOutcome.netError
      (cacheFileName none cfgEx.responseFormat) = Except.error PyExn.exn := by
  have h := c8_failure_contained cfgEx NetOutcome.netError false
    "hello".data none (by decide)
  exact ⟨h.1, h.2 (by decide)⟩

/-- Claim C9 (confirmed): when the retrieval collaborator is
unavailable — the store failed to load (`none`), the similarity search
raises, or it returns no documents — `_retrieve_context` returns the
empty string and raises nothing (the model is total), and
`_to_messages` returns exactly the base messages of the non-RAG parent
class. -/
theorem c9_retrieval_degrades (base : List Message)
    (userText dateInfo : List Char) (store : Option SearchFn)
    (h : store = none ∨ ∃ f, store = some f ∧
      (f userText 3 = Except.error () ∨ f userText 3 = Except.ok [])) :
    retrieveContext store userText 3 = [] ∧
    ragToMessages base userText store dateInfo = base := by
  rcases h with rfl | ⟨f, rfl, hf⟩
  · exact ⟨rfl, by unfold ragToMessages; cases userText <;> rfl⟩
  · have hc : retrieveContext (some f) userText 3 = [] := by
      rcases hf with hf | hf <;> simp [retrieveContext, hf]
    refine ⟨hc, ?_⟩
    cases userText with
    | nil => rfl
    | cons c rest =>
      show (if retrieveContext (some f) (c :: rest) 3 = [] then base
        else augmentLast base
          (augmentedContent dateInfo (retrieveContext (some f) (c :: rest) 3)
            (c :: rest))) = base
      rw [if_pos hc]

/-- Claim C9, witness: a raising search collaborator on a concrete
message list leaves the messages untouched. -/
theorem c9_retrieval_degrades_witness :
    retrieveContext (some fErrEx) "明天有什么课".data 3 = [] ∧
    ragToMessages [msgEx] "明天有什么课".data (some fErrEx)
      "2026年03月02日 周一".data = [msgEx] :=
  c9_retrieval_degrades [msgEx] "明天有什么课".data "2026年03月02日 周一".data
    (some fErrEx) (Or.inr ⟨fErrEx, rfl, Or.inl rfl⟩)

/-- Claim C10 (amended): the SiliconFlow backend applies its own
cleanup — the `https?://\S+` removal, then the four empty-bracket-pair
removals — and the text it puts in the request payload is exactly that
cleaned text.  Right after the URL-removal step the text contains no
`http(s)://` URL substring; the later bracket-pair removals, however,
can recreate URL substrings and can leave nested empty pairs, so the
payload text itself carries no such guarantee (see the
counterexample). -/
theorem c10_payload_cleanup_amended (cfg : SFConfig) (outcome : NetOutcome)
    (text : List Char) (hint : Option (List Char)) :
    hasUrl (removeUrls text) = false ∧
    ∀ p, (sfGenerateAudio cfg outcome text hint).payload = some p →
      p.input = sfCleanup text := by
  refine ⟨hasUrl_removeUrls text, fun p hp => ?_⟩
  unfold sfGenerateAudio at hp
  by_cases hstrip : pyStrip (sfCleanup text) = []
  · rw [if_pos hstrip] at hp
    exact absurd hp (by simp)
  · rw [if_neg hstrip] at hp
    simp only [Option.some.injEq] at hp
    rw [← hp]
    rfl

/-- Claim C10 (amended), witness at a concrete call. -/
theorem c10_payload_cleanup_amended_witness :
    hasUrl (removeUrls "hello".data) = false ∧
    (mkPayload cfgEx (sfCleanup "hello".data)).input =
      sfCleanup "hello".data := by
  have h := c10_payload_cleanup_amended cfgEx (NetOutcome.ok []) "hello".data none
  exact ⟨h.1, h.2 (mkPayload cfgEx (sfCleanup "hello".data)) (by decide)⟩
